import Mathlib

/-!
Shallow embedding of the toolbox package (src/tool.go) and proofs about it.

Strings of the Go program are modelled as Lean `String`/`List Char`; byte
buffers as `List Nat`; the black-box collaborators (the MIME sniffer
`http.DetectContentType`, the JSON decoder, the randomness source of
`crypto/rand`) are parameters of the embedded operations, as the spec
treats them as black boxes with their documented standard behavior.
-/

namespace Toolbox

set_option maxRecDepth 100000

/-- Embeds the constant `randomStringSource` (tool.go line 18). -/
def randomStringSource : List Char :=
  "abcdefghijklmnopqrstuvwxyzABCDEFGHIJKLMNOPQRSTUVWXYZ0123456789_+".toList

/-- Embeds `type Tools struct` (tool.go lines 21-26), the configuration
struct.  Go `int` is modelled as `Int`.  The misspelled field name
`AllowUnkownFields` is kept as in the source. -/
structure Tools where
  MaxFileSize : Int
  AllowedFileTypes : List String
  MaxJSONSize : Int
  AllowUnkownFields : Bool
deriving DecidableEq

/-- Embeds `RandomString` (tool.go lines 29-41).  Each loop iteration draws
`p, _ := rand.Prime(rand.Reader, len(r))` and indexes `r[p.Uint64() % 64]`.
The stream of drawn prime values is the parameter `entropy` (`entropy i` is
`p.Uint64()` of iteration `i`); `rand.Prime(rand.Reader, 64)` returns a
64-bit prime, so in every real execution `entropy i` is an odd prime below
`2 ^ 64`.  The `getD` default is never used because `x % r.length <
r.length`. -/
def RandomString (entropy : Nat → Nat) (n : Nat) : String :=
  String.mk ((List.range n).map (fun i =>
    randomStringSource.getD (entropy i % randomStringSource.length) ' '))

/-- Embeds `type UploadedFile struct` (tool.go lines 44-48). -/
structure UploadedFile where
  NewFileName : String
  OriginalFileName : String
  FileSize : Int
deriving DecidableEq

/-! ## Slugify (tool.go lines 186-202) -/

/-- Models `unicode`-aware `strings.ToLower` character mapping.  It is exact
on ASCII; characters of caseless scripts (such as the katakana used in the
tests) are left unchanged by both. -/
def goToLower (c : Char) : Char := c.toLower

/-- The character class `[a-z\d]` of the regular expression on tool.go
line 192 (`\d` is ASCII `[0-9]` in Go regexp). -/
def isSlugChar (c : Char) : Bool :=
  (97 ≤ c.toNat && c.toNat ≤ 122) || (48 ≤ c.toNat && c.toNat ≤ 57)

/-- Decides whether a character is the dash that `strings.Trim(_, "-")`
strips. -/
def isDash (c : Char) : Bool := c == '-'

/-- Models `re.ReplaceAllString(s, "-")` for `re = [^a-z\d]+` (tool.go
line 194): every maximal run of characters outside the class becomes a
single `'-'`.  The flag records whether the current position is inside a
non-matching run whose replacement dash has already been emitted. -/
def collapseAux : Bool → List Char → List Char
  | _, [] => []
  | inRun, c :: cs =>
    if isSlugChar c then c :: collapseAux false cs
    else if inRun then collapseAux true cs
    else '-' :: collapseAux true cs

/-- The full replacement pass of tool.go line 194 starts outside any run. -/
def collapseNonSlug (l : List Char) : List Char := collapseAux false l

/-- Strips trailing dashes (the right half of `strings.Trim(_, "-")`). -/
def trimTrail (l : List Char) : List Char :=
  (l.reverse.dropWhile isDash).reverse

/-- Models `strings.Trim(_, "-")` (tool.go line 194): strips leading and
trailing runs of `'-'`. -/
def goTrimDash (l : List Char) : List Char :=
  trimTrail (l.dropWhile isDash)

/-- The two failures of `Slugify`: `"empty string"` (tool.go line 189),
named `EmptyInput` by the spec, and `"after removing character, slug is
zero leng"` (line 197), named `EmptyResult`. -/
inductive SlugifyError
  | EmptyInput
  | EmptyResult
deriving DecidableEq

/-- Embeds `Slugify` (tool.go lines 186-202). -/
def Slugify (s : String) : Except SlugifyError String :=
  if s.length = 0 then .error .EmptyInput
  else
    let slug := goTrimDash (collapseNonSlug (s.toList.map goToLower))
    if slug.length = 0 then .error .EmptyResult
    else .ok (String.mk slug)

/-- Spec-side formulation of the slug normalization, modelled from the
spec's words (section 4.2): keeping every maximal run of characters inside
`[a-z0-9]` of the lower-cased input and joining the kept runs with single
dashes is the same as replacing every maximal outside run by `'-'` and then
trimming leading and trailing dashes.  `slugRuns` lists the maximal
inside runs, in order. -/
def slugRuns : List Char → List (List Char)
  | [] => []
  | c :: cs =>
    if isSlugChar c then
      (c :: cs.takeWhile isSlugChar) :: slugRuns (cs.dropWhile isSlugChar)
    else slugRuns cs
termination_by l => l.length
decreasing_by
  · simp only [List.length_cons]
    exact Nat.lt_succ_of_le (List.dropWhile_sublist isSlugChar).length_le
  · simp

/-- Joins runs with single dashes (no leading or trailing dash). -/
def dashJoin : List (List Char) → List Char
  | [] => []
  | [r] => r
  | r :: r2 :: rs => r ++ '-' :: dashJoin (r2 :: rs)

/-- The spec-side slugifier built from `slugRuns`/`dashJoin`, with the
error taxonomy of spec sections 4.2 and 7. -/
def SlugifySpec (s : String) : Except SlugifyError String :=
  if s.length = 0 then .error .EmptyInput
  else
    let slug := dashJoin (slugRuns (s.toList.map goToLower))
    if slug.length = 0 then .error .EmptyResult
    else .ok (String.mk slug)

/-! ## Upload pipeline (tool.go lines 50-168) -/

/-- One multipart file part, as it reaches the loop on tool.go line 94:
the header's `Filename` and the byte content of the part. -/
structure FileHeader where
  Filename : String
  content : List Nat
deriving DecidableEq

/-- The errors the embedded part processing can produce: `eofOnRead` is the
`io.EOF` returned by `infile.Read` on a zero-byte part (tool.go lines
106-109), `typeNotPermitted` is `"the uploaded file type is not permitted"`
(line 126). -/
inductive GoError
  | eofOnRead
  | typeNotPermitted
deriving DecidableEq

/-- File handles acquired while processing part number `i`: the part
stream opened on tool.go line 98 and the destination file created on
line 144. -/
inductive Handle
  | infile (i : Nat)
  | outfile (i : Nat)
deriving DecidableEq

/-- Resource accounting for one execution of the per-part closure
(tool.go lines 95-157): which handles were acquired, on which handles
`Close` ran with a non-nil receiver, and how many `Close` calls ran on a
nil `*os.File` receiver (such a call returns `os.ErrInvalid` and closes
nothing). -/
structure PartTrace where
  openedHandles : List Handle
  closedHandles : List Handle
  nilCloses : Nat
deriving DecidableEq

/-- The 512-byte buffer as it stands after `buff := make([]byte, 512)`
and `infile.Read(buff)` (tool.go lines 105-106) on a part with the given
content: `Read` fills the first `min 512 content.length` bytes and leaves
the zero initialization in the rest; the count it returns is discarded by
the code, so this whole buffer reaches `http.DetectContentType` on
line 113. -/
def sniffBuffer (content : List Nat) : List Nat :=
  content.take 512 ++ List.replicate (512 - content.length) 0

/-- Models `strings.EqualFold` (tool.go line 117): case-insensitive
equality (exact on the ASCII MIME strings involved). -/
def goEqualFold (a b : String) : Bool :=
  a.toList.map goToLower == b.toList.map goToLower

/-- The allow-list check of tool.go lines 112-123: with a non-empty
`AllowedFileTypes` the sniffed type must `EqualFold`-match some entry;
an empty list allows everything. -/
def allowedType (t : Tools) (fileType : String) : Bool :=
  if t.AllowedFileTypes.length > 0 then
    t.AllowedFileTypes.any (fun x => goEqualFold fileType x)
  else true

/-- Models `filepath.Ext` (tool.go line 135): the suffix of the last path
element starting at its final dot, `""` when that element has no dot. -/
def goExt (name : String) : String :=
  let base := (name.toList.reverse.takeWhile (fun c => c ≠ '/')).reverse
  let revExt := base.reverse.takeWhile (fun c => c ≠ '.')
  if revExt.length = base.length then ""
  else String.mk ('.' :: revExt.reverse)

/-- Embeds one execution of the per-part closure, tool.go lines 95-157.
Parameters: `detect` is the black-box `http.DetectContentType`; `rand25`
is the value `t.RandomString(25)` would produce for this part (the
randomness source is a black box).  Filesystem calls that the claims do
not exercise (`hdr.Open`, `infile.Seek`, `os.Create`, `io.Copy`) are
modelled as succeeding; the readers `ParseMultipartForm` stores return
`(min 512 len, nil)` from `Read` on a non-empty part and `(0, io.EOF)` on
an empty one.  Step by step:
line 98 opens `infile`; line 103 defers `infile.Close()`;
line 106 reads into the 512-byte buffer and line 107 returns the `Read`
error (so an empty part fails with `io.EOF` before any type check);
line 113 sniffs the whole buffer (`sniffBuffer`, the returned count being
discarded); lines 112-127 run the allow-list check; line 128 seeks back;
lines 134-139 pick the name; line 141 declares `var outfile *os.File`
(nil) and line 142 defers `outfile.Close()` — a method value whose
receiver is evaluated *now*, hence nil; line 144 creates the destination
file into a new, shadowing `outfile` which is never closed; line 147
copies the whole part (`FileSize = content.length` after the seek);
line 155 appends to the captured outer slice. -/
def processPart (t : Tools) (detect : List Nat → String) (rand25 : String)
    (renameFile : Bool) (i : Nat) (hdr : FileHeader) :
    Except GoError UploadedFile × PartTrace :=
  if hdr.content.length = 0 then
    -- Read returns (0, io.EOF); the deferred infile.Close() runs.
    (.error .eofOnRead, ⟨[.infile i], [.infile i], 0⟩)
  else
    let fileType := detect (sniffBuffer hdr.content)
    if allowedType t fileType = false then
      -- line 126; the deferred infile.Close() runs.
      (.error .typeNotPermitted, ⟨[.infile i], [.infile i], 0⟩)
    else
      let newName :=
        if renameFile then rand25 ++ goExt hdr.Filename else hdr.Filename
      let uf : UploadedFile :=
        ⟨newName, hdr.Filename, (hdr.content.length : Int)⟩
      -- Deferred calls at return: Close() on the nil outer `outfile`
      -- (one nil close), then infile.Close().  The created handle
      -- `.outfile i` is never closed.
      (.ok uf, ⟨[.infile i, .outfile i], [.infile i], 1⟩)

/-- Embeds the nested loops of tool.go lines 92-165 over the flattened
sequence of file headers (the order the multipart decoder yields them).
Go's scoping makes line 95's `uploadedFiles, err :=` a *new* pair of
variables: inside the closure, `uploadedFiles` (line 155) still refers to
the outer accumulator (line 75) — here the argument `outer` — while the
closure's return value `uploadeFiles` is the old slice (its misspelled
parameter).  Line 161 `return uploadedFiles, err` returns the *inner*
variable, which on a failing part holds the `nil` the closure returned. -/
def uploadFilesLoop (t : Tools) (detect : List Nat → String)
    (rands : Nat → String) (renameFile : Bool) :
    Nat → List UploadedFile → List FileHeader →
    (List UploadedFile × Option GoError) × List PartTrace
  | _, outer, [] => ((outer, none), [])
  | i, outer, hdr :: rest =>
    match processPart t detect (rands i) renameFile i hdr with
    | (.error e, tr) =>
      -- line 161: the inner `uploadedFiles` is the closure's nil return.
      (([], some e), [tr])
    | (.ok uf, tr) =>
      -- line 155 already appended to the outer accumulator; the inner
      -- success value (the stale `uploadeFiles`) is discarded.
      let r := uploadFilesLoop t detect rands renameFile (i + 1)
        (outer ++ [uf]) rest
      (r.1, tr :: r.2)

/-- Embeds `UploadFiles` (tool.go lines 67-168).  `rands i` is the random
25-character string drawn for part `i` when renaming.  Returns the
configuration struct as it stands after the call (lines 77-79 assign the
1 GiB default *into* the struct through the pointer receiver), the result
pair of slice and error, and the resource traces of the processed parts.
`CreateDirIfNotExist` and `ParseMultipartForm` (lines 81-90) are modelled
as succeeding. -/
def UploadFiles (t : Tools) (detect : List Nat → String)
    (rands : Nat → String) (parts : List FileHeader) (rename : List Bool) :
    Tools × ((List UploadedFile × Option GoError) × List PartTrace) :=
  let renameFile := match rename with
    | [] => true
    | b :: _ => b
  let t1 := if t.MaxFileSize = 0
    then { t with MaxFileSize := (1024 * 1024 * 1024 : Int) } else t
  (t1, uploadFilesLoop t1 detect rands renameFile 0 [] parts)

/-- Outcome of `UploadOneFile`: a record, an error value, or the Go
runtime panic `index out of range` that `files[0]` raises on an empty
slice (process termination, not a value return). -/
inductive OneFileResult
  | ok (f : UploadedFile)
  | err (e : GoError)
  | outOfRange
deriving DecidableEq

/-- The tail of `UploadOneFile` (tool.go lines 60-64): propagate a
non-nil error, otherwise evaluate `files[0]` — which on an empty slice
raises the runtime panic `index out of range`. -/
def firstFileResult : List UploadedFile × Option GoError → OneFileResult
  | (_, some e) => .err e
  | ([], none) => .outOfRange
  | (f :: _, none) => .ok f

/-- Embeds `UploadOneFile` (tool.go lines 50-65): delegates to
`UploadFiles` with the resolved rename flag and returns `files[0]`. -/
def UploadOneFile (t : Tools) (detect : List Nat → String)
    (rands : Nat → String) (parts : List FileHeader) (rename : List Bool) :
    Tools × OneFileResult :=
  let renameFile := match rename with
    | [] => true
    | b :: _ => b
  let u := UploadFiles t detect rands parts [renameFile]
  (u.1, firstFileResult u.2.1)

/-! ## ReadJSON (tool.go lines 223-277) -/

/-- The decoder errors `dec.Decode` can surface, modelled from the
documented behavior of `encoding/json` and `net/http` (black boxes per
spec section 6).  `badlyFormed` is `*json.SyntaxError`; `typeMismatch` is
`*json.UnmarshalTypeError`; `unknownKey name` is the error
`DisallowUnknownFields` produces, a plain error whose message is
`json: unknown field "name"` (with a space after the colon); `tooLarge`
is the `http.MaxBytesReader` violation; `invalidUnmarshal` is
`*json.InvalidUnmarshalError`. -/
inductive DecodeErr
  | badlyFormed (offset : Int)
  | unexpectedEOF
  | typeMismatch (field : String) (offset : Int)
  | eof
  | unknownKey (name : String)
  | tooLarge
  | invalidUnmarshal (msg : String)
  | other (msg : String)
deriving DecidableEq

/-- The `err.Error()` message of each decoder error, as the Go standard
library formats it (`%q` quotes the name). -/
def errString : DecodeErr → String
  | .badlyFormed offset =>
    "invalid character at offset " ++ toString offset
  | .unexpectedEOF => "unexpected EOF"
  | .typeMismatch field _ => "json: cannot unmarshal into field " ++ field
  | .eof => "EOF"
  | .unknownKey name => "json: unknown field \"" ++ name ++ "\""
  | .tooLarge => "http: request body too large"
  | .invalidUnmarshal msg => msg
  | .other msg => msg

/-- Models `strings.HasPrefix(s, pre)`. -/
def goHasPre (s pre : String) : Bool := pre.toList.isPrefixOf s.toList

/-- Models `strings.TrimPrefix(s, pre)`: drops the prefix when present
(the prefixes involved are ASCII, so character count equals byte
count). -/
def goTrimPre (s pre : String) : String :=
  if goHasPre s pre then String.mk (s.toList.drop pre.toList.length) else s

/-- Embeds the error classification switch of tool.go lines 240-266, in
source order.  The first four arms are the `errors.As`/`errors.Is` tests
(they match on the error's dynamic type, not its message); the remaining
arms inspect `err.Error()`: the `strings.HasPrefix` test of line 257 uses
the literal `"json:unkown field"` exactly as written in the source, and
line 258's `TrimPrefix` drops that prefix from the message. -/
def classifyDecodeErr (maxBytes : Int) (e : DecodeErr) : String :=
  match e with
  | .badlyFormed offset =>
    "body contains badly-formed JSON (at character " ++ toString offset ++ ")"
  | .unexpectedEOF => "body contains badly-formed JSON"
  | .typeMismatch field offset =>
    if field ≠ "" then
      "body contains incorrect JSON type for field \"" ++ field ++ "\""
    else "body contains incorrect JSON type (at: " ++ toString offset ++ ")"
  | .eof => "body must not be empty"
  | e' =>
    let msg := errString e'
    if goHasPre msg "json:unkown field" then
      "body containes unknown key " ++ goTrimPre msg "json:unkown field"
    else if msg = "http: request body too large" then
      "body must not be larger than " ++ toString maxBytes ++ " bytes"
    else
      match e' with
      | .invalidUnmarshal m => "error unmarshaling JSON: " ++ m
      | _ => msg

/-- Embeds `ReadJSON` (tool.go lines 223-277).  The decoder is a black
box: `firstDecode allow` is the outcome of `dec.Decode(data)` on the
request body when `DisallowUnknownFields` has (not) been set —
`ReadJSON` passes `t.AllowUnkownFields` (lines 235-237); `restValues` is
how many further complete JSON values the body holds after the first, and
`trailingGarbage` whether non-JSON bytes follow instead.  The second
`dec.Decode(&struct` `)` on line 269 yields `io.EOF` exactly when neither
is present; anything else triggers line 272.  Lines 225-229 compute the
size limit in a *local* variable; no field of `t` is written, so the
returned configuration is `t` itself. -/
def ReadJSON (t : Tools) (firstDecode : Bool → Option DecodeErr)
    (restValues : Nat) (trailingGarbage : Bool) :
    Tools × Except String Unit :=
  let maxBytes : Int := if t.MaxJSONSize ≠ 0 then t.MaxJSONSize
    else (1024 * 1024 : Int)
  match firstDecode t.AllowUnkownFields with
  | some e => (t, .error (classifyDecodeErr maxBytes e))
  | none =>
    if restValues = 0 ∧ trailingGarbage = false then (t, .ok ())
    else (t, .error "body must contain only one JSON value")

/-! ## Test fixtures -/

/-- A content sniffer for the concrete upload scenarios: the PNG magic
prefix is classified `image/png`, everything else `text/plain` (the
shape `http.DetectContentType` takes on these inputs). -/
def pngDetect : List Nat → String := fun b =>
  if b.take 4 = [137, 80, 78, 71] then "image/png" else "text/plain"

/-- Configuration allowing only PNG uploads. -/
def tPng : Tools := ⟨1024, ["image/png"], 0, false⟩

/-- Configuration with an empty allow-list (every type permitted). -/
def tAllowAll : Tools := ⟨1024, [], 0, false⟩

/-- A 604-byte PNG-looking part. -/
def pngPart : FileHeader := ⟨"img.png", [137, 80, 78, 71] ++ List.replicate 600 0⟩

/-- A 2-byte text part (rejected by `tPng`). -/
def txtPart : FileHeader := ⟨"notes.txt", [104, 105]⟩

/-- A content sniffer distinguishing the actual prefix of `txtPart` from
the 512-byte zero-padded buffer: on the 2 bytes the part contains it
reports the allowed `text/plain`; on anything longer (such as the padded
buffer) it reports `application/octet-stream`, the classification zero
padding pushes `http.DetectContentType` towards. -/
def shortDetect : List Nat → String := fun b =>
  if b.length = 2 then "text/plain" else "application/octet-stream"

/-- A request body whose first JSON value carries one object key,
`"alpha"`, that the target shape does not have: with unknown fields
disallowed the first `Decode` fails with the standard library's
`json: unknown field "alpha"` error, with them allowed it succeeds. -/
def bodyUnknownAlpha : Bool → Option DecodeErr := fun allow =>
  if allow then none else some (.unknownKey "alpha")

/-- The characters sitting at the odd indices 1, 3, ..., 63 of the
64-character alphabet `randomStringSource`. -/
def oddIndexChars : List Char :=
  (List.range 32).map (fun k => randomStringSource.getD (2 * k + 1) ' ')

/-! ## Helper lemmas -/

theorem getD_mem_of_lt :
    ∀ (l : List Char) (i : Nat) (d : Char), i < l.length → l.getD i d ∈ l := by
  intro l
  induction l with
  | nil => intro i d h; exact absurd h (by simp)
  | cons c cs ih =>
    intro i d h
    cases i with
    | zero => exact List.mem_cons_self c cs
    | succ j =>
      exact List.mem_cons_of_mem c (ih j d (Nat.lt_of_succ_lt_succ h))

theorem char_contains_eq_true_iff_mem (l : List Char) (a : Char) :
    l.contains a = true ↔ a ∈ l := by
  simp [List.elem_iff]

/-! ## Claim theorems -/

/-- Claim C1: the claim says a batch in which a later part fails returns
the error together with the `UploadedFile` records accumulated before the
failing part.  The code does not: because line 95's `uploadedFiles, err :=`
shadows the accumulator and the closure returns `nil` on error, line 161
returns a nil slice.  Concretely, a PNG part that uploads fine on its own
(first conjunct) is absent from the result when a second, rejected part
follows it — the batch returns `([], typeNotPermitted)` (second
conjunct), not `([png record], typeNotPermitted)`. -/
theorem uploadFiles_failure_returns_nil_sequence :
    (UploadFiles tPng pngDetect (fun _ => "RANDOM") [pngPart] []).2.1
      = ([⟨"RANDOM.png", "img.png", 604⟩], none)
    ∧ (UploadFiles tPng pngDetect (fun _ => "RANDOM") [pngPart, txtPart] []).2.1
      = ([], some GoError.typeNotPermitted) :=
  ⟨rfl, rfl⟩

/-- Claim C2: the claim says `UploadOneFile` on a request with zero file
parts fails with a recoverable `NoFileUploaded` error.  The code instead
evaluates `files[0]` on an empty slice, the runtime panic
`index out of range` — modelled as the `outOfRange` outcome, distinct
from every error-value return. -/
theorem uploadOneFile_zero_parts_out_of_range :
    (UploadOneFile tPng pngDetect (fun _ => "RANDOM") [] []).2
      = OneFileResult.outOfRange := rfl

/-- Claim C3: the claim says an unknown object key is classified as
`body containes unknown key <name>`.  The code's prefix test uses the
literal `"json:unkown field"`, which never matches the standard library's
`json: unknown field "alpha"` message (different spelling and spacing),
so `ReadJSON` returns the raw decoder error: the result is exactly the
raw message (first conjunct) and does not carry the `UnknownField`
classification prefix (second conjunct). -/
theorem readJSON_unknown_key_returns_raw_error :
    (ReadJSON ⟨0, [], 1024, false⟩ bodyUnknownAlpha 0 false).2
      = .error "json: unknown field \"alpha\""
    ∧ goHasPre (classifyDecodeErr 1024 (DecodeErr.unknownKey "alpha"))
        "body containes unknown key" = false :=
  ⟨rfl, rfl⟩

/-- Claim C4, counterexample: calling `UploadFiles` on a configuration
whose `MaxFileSize` is zero-valued writes the 1 GiB default into the
struct (tool.go lines 77-79), so the field does not have the same value
after the call as before it. -/
theorem config_mutation_counterexample :
    (UploadFiles ⟨0, [], 0, false⟩ (fun _ => "t") (fun _ => "r") [] []).1.MaxFileSize
      = 1073741824
    ∧ (⟨0, [], 0, false⟩ : Tools).MaxFileSize = 0 :=
  ⟨rfl, rfl⟩

/-- Claim C4, amended: the only mutation any operation performs on the
configuration struct is `UploadFiles` (and `UploadOneFile` through it)
setting `MaxFileSize` to 1 GiB when it was zero-valued; with a non-zero
`MaxFileSize` the struct is returned unchanged, the zero-valued case
changes no other field, and `ReadJSON` never writes the struct (its
1 MiB default lives in a local variable). -/
theorem config_mutation_only_default_maxFileSize :
    (∀ (t : Tools) d r parts rn, t.MaxFileSize ≠ 0 →
      (UploadFiles t d r parts rn).1 = t)
    ∧ (∀ (t : Tools) d r parts rn, t.MaxFileSize = 0 →
        (UploadFiles t d r parts rn).1 = { t with MaxFileSize := 1073741824 })
    ∧ (∀ (t : Tools) d r parts rn, t.MaxFileSize ≠ 0 →
        (UploadOneFile t d r parts rn).1 = t)
    ∧ (∀ (t : Tools) d r parts rn, t.MaxFileSize = 0 →
        (UploadOneFile t d r parts rn).1 = { t with MaxFileSize := 1073741824 })
    ∧ (∀ (t : Tools) fd rv g, (ReadJSON t fd rv g).1 = t) := by
  refine ⟨?_, ?_, ?_, ?_, ?_⟩
  · intro t d r parts rn h
    simp [UploadFiles, h]
  · intro t d r parts rn h
    simp [UploadFiles, h]
  · intro t d r parts rn h
    simp [UploadOneFile, UploadFiles, h]
  · intro t d r parts rn h
    simp [UploadOneFile, UploadFiles, h]
  · intro t fd rv g
    unfold ReadJSON
    rcases fd t.AllowUnkownFields with _ | e
    · simp only []
      split <;> rfl
    · rfl

/-- Witness for `config_mutation_only_default_maxFileSize` at concrete
configurations. -/
theorem config_mutation_only_default_maxFileSize_witness :
    (UploadFiles ⟨5, [], 0, false⟩ (fun _ => "t") (fun _ => "r") [] []).1
      = ⟨5, [], 0, false⟩
    ∧ (UploadOneFile ⟨0, ["x"], 7, true⟩ (fun _ => "t") (fun _ => "r") [] []).1
      = ⟨1073741824, ["x"], 7, true⟩ :=
  ⟨config_mutation_only_default_maxFileSize.1 ⟨5, [], 0, false⟩
      (fun _ => "t") (fun _ => "r") [] [] (by decide),
    config_mutation_only_default_maxFileSize.2.2.2.1 ⟨0, ["x"], 7, true⟩
      (fun _ => "t") (fun _ => "r") [] [] rfl⟩

/-- Claim C5: the claim says sniffing runs on exactly the first
`min 512 partLength` bytes and that a short or empty part does not fail
before the allow-list check.  The code discards the count `Read` returns:
the buffer that reaches `http.DetectContentType` for the 2-byte part is
the full 512-byte zero-padded buffer (first two conjuncts), not the
2-byte prefix (third conjunct); an empty part fails with the `Read`
error `io.EOF` even though every type is allowed (fourth conjunct); and
a sniffer that classifies the true 2-byte prefix as the allowed type
still sees the padded buffer, so the part is rejected (fifth
conjunct). -/
theorem sniff_uses_padded_buffer_and_empty_part_fails :
    sniffBuffer [104, 105] = [104, 105] ++ List.replicate 510 0
    ∧ (sniffBuffer [104, 105]).length = 512
    ∧ [104, 105].take 512 = [104, 105]
    ∧ (processPart tAllowAll pngDetect "r" true 0 ⟨"a.txt", []⟩).1
      = .error GoError.eofOnRead
    ∧ (processPart ⟨1024, ["text/plain"], 0, false⟩ shortDetect "r" true 0
        ⟨"a.txt", [104, 105]⟩).1 = .error GoError.typeNotPermitted :=
  ⟨rfl, rfl, rfl, rfl, rfl⟩

/-- Claim C6: the claim says both the part stream and the created
destination file are closed on every exit path.  The part stream is (the
deferred `infile.Close()` runs on every path — first conjunct, for every
input), but the destination file handle is never closed: line 142's
`defer outfile.Close()` captures the nil receiver declared on line 141,
and the handle `os.Create` returns on line 144 is bound to a new,
shadowed variable.  On a successfully persisted part the trace shows the
created `outfile` among the acquired handles, absent from the closed
ones, with one `Close` call on a nil receiver (second conjunct). -/
theorem destination_file_handle_never_closed :
    (∀ t d r b i hdr, ((processPart t d r b i hdr).2).closedHandles
      = [Handle.infile i])
    ∧ (processPart tAllowAll pngDetect "r" true 0 ⟨"a.png", [1, 2, 3]⟩)
      = (.ok ⟨"r.png", "a.png", 3⟩,
          ⟨[Handle.infile 0, Handle.outfile 0], [Handle.infile 0], 1⟩) := by
  constructor
  · intro t d r b i hdr
    by_cases h0 : hdr.content.length = 0
    · simp [processPart, h0]
    · by_cases hA : allowedType t (d (sniffBuffer hdr.content)) = false
      · simp [processPart, h0, hA]
      · simp [processPart, h0, hA]
  · rfl

/-- Claim C7: after the first JSON value decodes, `ReadJSON` decodes once
more and demands `io.EOF`: it succeeds exactly when no further value and
no trailing garbage follow (first conjunct); otherwise it fails, and the
only possible failure after a successful first decode is the
`MultipleValues` message (second conjunct); the body shaped like
`one value, then a second value` fails with exactly that message, and a
single-value body succeeds (third and fourth conjuncts). -/
theorem readJSON_exactly_one_value :
    (∀ (t : Tools) (rv : Nat) (g : Bool),
      ((ReadJSON t (fun _ => none) rv g).2 = .ok ()) ↔ (rv = 0 ∧ g = false))
    ∧ (∀ (t : Tools) (rv : Nat) (g : Bool),
        (ReadJSON t (fun _ => none) rv g).2 = .ok ()
        ∨ (ReadJSON t (fun _ => none) rv g).2
            = .error "body must contain only one JSON value")
    ∧ (ReadJSON ⟨0, [], 1024, false⟩ (fun _ => none) 1 false).2
        = .error "body must contain only one JSON value"
    ∧ (ReadJSON ⟨0, [], 1024, false⟩ (fun _ => none) 0 false).2 = .ok () := by
  refine ⟨?_, ?_, rfl, rfl⟩
  · intro t rv g
    by_cases h : rv = 0 ∧ g = false
    · simp [ReadJSON, h]
    · simp [ReadJSON, h]
  · intro t rv g
    by_cases h : rv = 0 ∧ g = false
    · exact Or.inl (by simp [ReadJSON, h])
    · exact Or.inr (by simp [ReadJSON, h])

/-- Claim C9: for every entropy stream and every `n ≥ 0`,
`RandomString n` has length exactly `n` and each of its characters is an
element of the 64-character alphabet `randomStringSource` (the index
`p.Uint64() % 64` is always in range, whatever value the source
yields). -/
theorem randomString_length_and_alphabet :
    ∀ (entropy : Nat → Nat) (n : Nat),
      (RandomString entropy n).length = n
      ∧ ((RandomString entropy n).data.all
          (fun c => randomStringSource.contains c)) = true := by
  intro e n
  constructor
  · simp [RandomString, String.length]
  · rw [List.all_eq_true]
    intro c hc
    simp only [RandomString] at hc
    obtain ⟨i, hi, rfl⟩ := List.mem_map.1 hc
    refine (char_contains_eq_true_iff_mem _ _).2 ?_
    exact getD_mem_of_lt _ _ _ (Nat.mod_lt _ (by decide))

/-- Claim C10: every character `RandomString` ever emits lies at an odd
index of the alphabet.  `rand.Prime(rand.Reader, 64)` yields primes, all
of them odd (being 64-bit they exceed 2), and an odd number stays odd
modulo 64, so the computed index `p % 64` is odd: under the hypothesis
that every drawn value is a prime other than 2, all output characters
belong to `oddIndexChars` and the even-indexed character `'a'` can never
occur. -/
theorem randomString_chars_only_odd_indices :
    ∀ (entropy : Nat → Nat) (n : Nat),
      (∀ i, Nat.Prime (entropy i) ∧ entropy i ≠ 2) →
      ((RandomString entropy n).data.all
        (fun c => oddIndexChars.contains c)) = true
      ∧ ((RandomString entropy n).data.contains 'a') = false := by
  intro e n h
  have hall : ((RandomString e n).data.all
      (fun c => oddIndexChars.contains c)) = true := by
    rw [List.all_eq_true]
    intro c hc
    simp only [RandomString] at hc
    obtain ⟨i, hi, rfl⟩ := List.mem_map.1 hc
    refine (char_contains_eq_true_iff_mem _ _).2 ?_
    have hodd : e i % 2 = 1 := Nat.odd_iff.1 ((h i).1.odd_of_ne_two (h i).2)
    have hlen : randomStringSource.length = 64 := by decide
    rw [hlen]
    have hm2 : (e i % 64) % 2 = 1 := by
      rw [Nat.mod_mod_of_dvd _ (by norm_num)]
      exact hodd
    have hmlt : e i % 64 < 64 := Nat.mod_lt _ (by norm_num)
    obtain ⟨k, hk, hkeq⟩ : ∃ k, k < 32 ∧ e i % 64 = 2 * k + 1 :=
      ⟨(e i % 64) / 2, by omega, by omega⟩
    rw [hkeq]
    unfold oddIndexChars
    exact List.mem_map.2 ⟨k, List.mem_range.2 hk, rfl⟩
  refine ⟨hall, ?_⟩
  cases hca : ((RandomString e n).data.contains 'a') with
  | false => rfl
  | true =>
    exfalso
    have hmem : 'a' ∈ (RandomString e n).data :=
      (char_contains_eq_true_iff_mem _ _).1 hca
    have hodd := (List.all_eq_true.1 hall) 'a' hmem
    have hfalse : oddIndexChars.contains 'a' = false := by decide
    rw [hfalse] at hodd
    exact Bool.noConfusion hodd

/-- Witness for `randomString_chars_only_odd_indices`: the constant
stream of the odd prime 3 satisfies the hypothesis, and the resulting
5-character output indeed consists of odd-index characters only, never
`'a'`. -/
theorem randomString_chars_only_odd_indices_witness :
    ((RandomString (fun _ => 3) 5).data.all
      (fun c => oddIndexChars.contains c)) = true
    ∧ ((RandomString (fun _ => 3) 5).data.contains 'a') = false :=
  randomString_chars_only_odd_indices (fun _ => 3) 5
    (fun _ => ⟨by norm_num, by norm_num⟩)

/-! ## Slugify: the replace-and-trim pass equals joining the kept runs -/

theorem slug_not_dash {c : Char} (h : isSlugChar c = true) :
    isDash c = false := by
  cases hd : isDash c
  · rfl
  · exfalso
    have hc : c = '-' := eq_of_beq hd
    subst hc
    exact absurd h (by decide)

theorem dropWhile_head_false (p : Char → Bool) :
    ∀ (l : List Char) (d : Char) (ds : List Char),
      l.dropWhile p = d :: ds → p d = false := by
  intro l
  induction l with
  | nil => intro d ds h; simp [List.dropWhile] at h
  | cons c cs ih =>
    intro d ds h
    by_cases hc : p c = true
    · rw [List.dropWhile_cons, if_pos hc] at h
      exact ih d ds h
    · rw [List.dropWhile_cons, if_neg hc] at h
      obtain ⟨h1, -⟩ := List.cons.injEq .. ▸ h
      subst h1
      exact Bool.not_eq_true _ ▸ hc

theorem dropWhile_eq_self_of_head_false {p : Char → Bool} :
    ∀ {l : List Char}, (∀ c ∈ l, p c = false) → l.dropWhile p = l := by
  intro l h
  cases l with
  | nil => rfl
  | cons c cs =>
    rw [List.dropWhile_cons, if_neg]
    simp [h c (List.mem_cons_self c cs)]

theorem dropWhile_append_of_ne_nil {p : Char → Bool} :
    ∀ (a b : List Char), a.dropWhile p ≠ [] →
      (a ++ b).dropWhile p = a.dropWhile p ++ b := by
  intro a
  induction a with
  | nil => intro b h; exact absurd rfl h
  | cons c a1 ih =>
    intro b h
    by_cases hc : p c = true
    · rw [List.dropWhile_cons, if_pos hc] at h ⊢
      rw [List.cons_append, List.dropWhile_cons, if_pos hc]
      exact ih b h
    · rw [List.dropWhile_cons, if_neg hc]
      rw [List.cons_append, List.dropWhile_cons, if_neg hc]

theorem trimTrail_of_no_dash {r : List Char}
    (h : ∀ c ∈ r, isDash c = false) : trimTrail r = r := by
  unfold trimTrail
  rw [dropWhile_eq_self_of_head_false, List.reverse_reverse]
  intro c hc
  exact h c (List.mem_reverse.1 hc)

theorem trimTrail_append_dash (x : List Char) :
    trimTrail (x ++ ['-']) = trimTrail x := by
  unfold trimTrail
  rw [List.reverse_append]
  simp [List.dropWhile_cons, isDash]

theorem trimTrail_append_of_ne_nil (x z : List Char)
    (h : trimTrail z ≠ []) : trimTrail (x ++ z) = x ++ trimTrail z := by
  have hz : z.reverse.dropWhile isDash ≠ [] := by
    intro hh
    apply h
    unfold trimTrail
    rw [hh]
    rfl
  unfold trimTrail
  rw [List.reverse_append, dropWhile_append_of_ne_nil _ _ hz,
    List.reverse_append, List.reverse_reverse]

theorem dashJoin_ne_nil {r : List Char} {rs : List (List Char)}
    (h : r ≠ []) : dashJoin (r :: rs) ≠ [] := by
  cases rs with
  | nil => simpa [dashJoin] using h
  | cons r2 rs2 => simp [dashJoin]

theorem collapseAux_slug_run (r : List Char) :
    ∀ (rest : List Char) (b : Bool), r ≠ [] →
      (∀ c ∈ r, isSlugChar c = true) →
      collapseAux b (r ++ rest) = r ++ collapseAux false rest := by
  induction r with
  | nil => intro rest b h _; exact absurd rfl h
  | cons c r1 ih =>
    intro rest b _ hall
    have hc : isSlugChar c = true := hall c (List.mem_cons_self c r1)
    by_cases hr : r1 = []
    · subst hr
      simp [collapseAux, hc]
    · have harg : (c :: r1) ++ rest = c :: (r1 ++ rest) := rfl
      rw [harg,
        show collapseAux b (c :: (r1 ++ rest))
          = c :: collapseAux false (r1 ++ rest) from by simp [collapseAux, hc],
        ih rest false hr (fun x hx => hall x (List.mem_cons_of_mem c hx))]
      rfl

theorem dropDash_collapseAux_true (l : List Char) :
    (collapseAux true l).dropWhile isDash = collapseAux true l := by
  induction l with
  | nil => rfl
  | cons c cs ih =>
    by_cases hc : isSlugChar c = true
    · simp only [collapseAux, hc, if_true]
      rw [List.dropWhile_cons, if_neg]
      simp [slug_not_dash hc]
    · simp only [collapseAux, hc, if_false, if_true]
      exact ih

theorem collapseAux_true_eq_dropDash_false (l : List Char) :
    collapseAux true l = (collapseAux false l).dropWhile isDash := by
  induction l with
  | nil => rfl
  | cons c cs ih =>
    by_cases hc : isSlugChar c = true
    · rw [show collapseAux true (c :: cs) = c :: collapseAux false cs
          from by simp [collapseAux, hc],
        show collapseAux false (c :: cs) = c :: collapseAux false cs
          from by simp [collapseAux, hc],
        List.dropWhile_cons, if_neg]
      simp [slug_not_dash hc]
    · rw [show collapseAux true (c :: cs) = collapseAux true cs
          from by simp [collapseAux, hc],
        show collapseAux false (c :: cs) = '-' :: collapseAux true cs
          from by simp [collapseAux, hc],
        List.dropWhile_cons, if_pos (by decide : isDash '-' = true)]
      exact (dropDash_collapseAux_true cs).symm

theorem collapseAux_true_nil_of_all_false :
    ∀ {l : List Char}, (∀ x ∈ l, isSlugChar x = false) →
      collapseAux true l = [] := by
  intro l
  induction l with
  | nil => intro _; rfl
  | cons c cs ih =>
    intro h
    have hc : isSlugChar c = false := h c (List.mem_cons_self c cs)
    simp only [collapseAux, hc, if_false, if_true]
    exact ih (fun x hx => h x (List.mem_cons_of_mem c hx))

theorem collapseAux_true_nil_iff_runs_nil (l : List Char) :
    collapseAux true l = [] ↔ slugRuns l = [] := by
  induction l with
  | nil => simp [collapseAux, slugRuns]
  | cons c cs ih =>
    by_cases hc : isSlugChar c = true
    · simp [collapseAux, slugRuns, hc]
    · simp only [collapseAux, slugRuns, hc, if_false, if_true]
      exact ih

theorem slugRuns_entries_nonempty :
    ∀ (l : List Char) (r : List Char) (rs : List (List Char)),
      slugRuns l = r :: rs → r ≠ [] := by
  intro l
  induction l with
  | nil => intro r rs h; simp [slugRuns] at h
  | cons c cs ih =>
    intro r rs h
    by_cases hc : isSlugChar c = true
    · rw [show slugRuns (c :: cs)
          = (c :: cs.takeWhile isSlugChar) :: slugRuns (cs.dropWhile isSlugChar)
        from by simp [slugRuns, hc]] at h
      obtain ⟨h1, -⟩ := List.cons.injEq .. ▸ h
      subst h1
      simp
    · rw [show slugRuns (c :: cs) = slugRuns cs from by simp [slugRuns, hc]] at h
      exact ih r rs h

theorem trimTrail_collapse_true_eq_dashJoin :
    ∀ (n : Nat) (l : List Char), l.length ≤ n →
      trimTrail (collapseAux true l) = dashJoin (slugRuns l) := by
  intro n
  induction n with
  | zero =>
    intro l hl
    have h0 : l = [] := List.eq_nil_of_length_eq_zero (Nat.le_zero.1 hl)
    subst h0
    rw [show slugRuns ([] : List Char) = [] from by simp [slugRuns]]
    rfl
  | succ n ih =>
    intro l hl
    cases l with
    | nil =>
      rw [show slugRuns ([] : List Char) = [] from by simp [slugRuns]]
      rfl
    | cons c cs =>
      by_cases hc : isSlugChar c = true
      · have hrall : ∀ x ∈ c :: cs.takeWhile isSlugChar, isSlugChar x = true := by
          intro x hx
          rcases List.mem_cons.1 hx with h1 | h2
          · subst h1; exact hc
          · exact List.mem_takeWhile_imp h2
        have hrenot : ∀ x ∈ c :: cs.takeWhile isSlugChar, isDash x = false :=
          fun x hx => slug_not_dash (hrall x hx)
        have hcollapse : collapseAux true (c :: cs)
            = (c :: cs.takeWhile isSlugChar)
              ++ collapseAux false (cs.dropWhile isSlugChar) := by
          conv_lhs =>
            rw [show c :: cs
                = (c :: cs.takeWhile isSlugChar) ++ cs.dropWhile isSlugChar
              from by simp]
          exact collapseAux_slug_run _ _ true (by simp) hrall
        have hruns : slugRuns (c :: cs)
            = (c :: cs.takeWhile isSlugChar)
              :: slugRuns (cs.dropWhile isSlugChar) := by
          simp [slugRuns, hc]
        rw [hcollapse, hruns]
        cases hrest : cs.dropWhile isSlugChar with
        | nil =>
          rw [show slugRuns ([] : List Char) = [] from by simp [slugRuns]]
          show trimTrail ((c :: cs.takeWhile isSlugChar) ++ [])
            = dashJoin [c :: cs.takeWhile isSlugChar]
          rw [List.append_nil, trimTrail_of_no_dash hrenot]
          rfl
        | cons d ds =>
          have hd : isSlugChar d = false := dropWhile_head_false _ cs d ds hrest
          have hlds : ds.length ≤ n := by
            have h1 : (cs.dropWhile isSlugChar).length ≤ cs.length :=
              (List.dropWhile_sublist _).length_le
            rw [hrest] at h1
            simp only [List.length_cons] at h1 hl
            omega
          have hih := ih ds hlds
          show trimTrail ((c :: cs.takeWhile isSlugChar)
              ++ collapseAux false (d :: ds))
            = dashJoin ((c :: cs.takeWhile isSlugChar) :: slugRuns (d :: ds))
          rw [show collapseAux false (d :: ds) = '-' :: collapseAux true ds
            from by simp [collapseAux, hd]]
          rw [show slugRuns (d :: ds) = slugRuns ds from by simp [slugRuns, hd]]
          cases hrds : slugRuns ds with
          | nil =>
            have hz : collapseAux true ds = [] :=
              (collapseAux_true_nil_iff_runs_nil ds).2 hrds
            rw [hz]
            show trimTrail ((c :: cs.takeWhile isSlugChar) ++ ['-'])
              = dashJoin [c :: cs.takeWhile isSlugChar]
            rw [trimTrail_append_dash, trimTrail_of_no_dash hrenot]
            rfl
          | cons r2 rs2 =>
            have hr2ne : r2 ≠ [] := slugRuns_entries_nonempty ds r2 rs2 hrds
            have htne : trimTrail (collapseAux true ds) ≠ [] := by
              rw [hih, hrds]
              exact dashJoin_ne_nil hr2ne
            rw [show (c :: cs.takeWhile isSlugChar) ++ '-' :: collapseAux true ds
                = ((c :: cs.takeWhile isSlugChar) ++ ['-']) ++ collapseAux true ds
              from by simp]
            rw [trimTrail_append_of_ne_nil _ _ htne, hih, hrds]
            simp [dashJoin]
      · rw [show collapseAux true (c :: cs) = collapseAux true cs
          from by simp [collapseAux, hc]]
        rw [show slugRuns (c :: cs) = slugRuns cs from by simp [slugRuns, hc]]
        exact ih cs (Nat.le_of_succ_le_succ (by simpa using hl))

theorem collapse_trim_eq_runs (l : List Char) :
    goTrimDash (collapseNonSlug l) = dashJoin (slugRuns l) := by
  unfold goTrimDash collapseNonSlug
  rw [← collapseAux_true_eq_dropDash_false l]
  exact trimTrail_collapse_true_eq_dashJoin l.length l (Nat.le_refl _)

/-- Claim C8: `Slugify` behaves as the spec words it: it equals, on every
input, the spec-side function that lower-cases, keeps the maximal
`[a-z0-9]` runs and joins them with single dashes — i.e. replacing every
maximal outside run with one `'-'` and trimming boundary dashes (first
conjunct); the two concrete vectors hold (second and third conjuncts);
the empty input fails with `EmptyInput` (fourth conjunct); and any
non-empty input all of whose characters normalize outside `[a-z0-9]`
fails with `EmptyResult` (fifth conjunct). -/
theorem slugify_matches_spec :
    (∀ s : String, Slugify s = SlugifySpec s)
    ∧ Slugify "Now is the time for all GOOD+=" = .ok "now-is-the-time-for-all-good"
    ∧ Slugify "helloハローワールド" = .ok "hello"
    ∧ Slugify "" = .error SlugifyError.EmptyInput
    ∧ (∀ s : String, s.length ≠ 0 →
        (∀ c ∈ s.toList, isSlugChar (goToLower c) = false) →
        Slugify s = .error SlugifyError.EmptyResult) := by
  refine ⟨?_, rfl, rfl, rfl, ?_⟩
  · intro s
    unfold Slugify SlugifySpec
    by_cases h : s.length = 0
    · simp [h]
    · simp [h, collapse_trim_eq_runs]
  · intro s hs hall
    have hL : ∀ x ∈ s.toList.map goToLower, isSlugChar x = false := by
      intro x hx
      obtain ⟨c, hc, rfl⟩ := List.mem_map.1 hx
      exact hall c hc
    have hz : collapseAux true (s.toList.map goToLower) = [] :=
      collapseAux_true_nil_of_all_false hL
    have hslug : goTrimDash (collapseNonSlug (s.toList.map goToLower)) = [] := by
      unfold goTrimDash collapseNonSlug
      rw [← collapseAux_true_eq_dropDash_false, hz]
      rfl
    have hslug2 : goTrimDash (collapseNonSlug (s.data.map goToLower)) = [] :=
      hslug
    unfold Slugify
    rw [if_neg hs]
    simp [hslug, hslug2]

/-- Witness for `slugify_matches_spec`: a purely katakana input is
non-empty and normalizes to nothing, so it fails with `EmptyResult`. -/
theorem slugify_matches_spec_witness :
    Slugify "ハローワールド" = .error SlugifyError.EmptyResult :=
  slugify_matches_spec.2.2.2.2 "ハローワールド" (by decide) (by decide)

end Toolbox
